import Mathlib

set_option maxRecDepth 16384

/-!
Shallow embedding of the truss-normalizer CSV pipeline (Go) and proofs about it.

The embedding models the seven column stages of `part_000`
(`ProcessTimestamp`, `ProcessZIPs`, `ProcessFirstName`, `ProcessAddress`,
`ProcessDurations`, `ProcessTotalDuration`, `ProcessNotes`).

Modelling conventions:
- Go `string` cells holding text are modelled as Lean `String`
  (valid-Unicode cells); the two stages whose behaviour depends on invalid
  UTF-8 bytes (`ProcessAddress`, `ProcessNotes`) are modelled over byte
  lists (`List Nat`).
- Go `float64` values are modelled as exact rationals `ℚ`; parsing and
  `%.3f` formatting are modelled as exact decimal reading and
  round-half-to-even fixed formatting.
- Go `int` is modelled as `Int` with the 64-bit range check that
  `strconv.Atoi` performs.
- Writes to `os.Stderr` (warnings) are modelled as a returned list of the
  offending values; a Go runtime panic (out-of-range slice index) is
  modelled as a dedicated `crash` result.
-/

/-! ### Go `unicode`/`strings` helpers -/

/-- Go `unicode.IsSpace`: the code points with the Unicode White_Space
property. -/
def isGoSpace (c : Char) : Bool :=
  c.toNat = 9 || c.toNat = 10 || c.toNat = 11 || c.toNat = 12 ||
    c.toNat = 13 || c.toNat = 32 || c.toNat = 0x85 || c.toNat = 0xA0 ||
    c.toNat = 0x1680 || (0x2000 ≤ c.toNat && c.toNat ≤ 0x200A) ||
    c.toNat = 0x2028 || c.toNat = 0x2029 || c.toNat = 0x202F ||
    c.toNat = 0x205F || c.toNat = 0x3000

/-- Trim leading and trailing white space from a character list
(Go `strings.TrimSpace` on the rune sequence). -/
def trimL (l : List Char) : List Char :=
  ((l.dropWhile isGoSpace).reverse.dropWhile isGoSpace).reverse

/-- Go `strings.TrimSpace`. -/
def goTrimSpace (s : String) : String := ⟨trimL s.data⟩

/-- Accumulator worker for `goFieldsL`: `acc` holds the characters of the
current token in reverse. -/
def fieldsAux (acc : List Char) : List Char → List (List Char)
  | [] => if acc = [] then [] else [acc.reverse]
  | c :: cs =>
    if isGoSpace c then
      if acc = [] then fieldsAux [] cs else acc.reverse :: fieldsAux [] cs
    else fieldsAux (c :: acc) cs

/-- Go `strings.Fields`: split around runs of white space
(on the rune sequence). -/
def goFieldsL (l : List Char) : List (List Char) := fieldsAux [] l

/-- Go `strings.ToUpper` on a single rune, restricted to the ASCII fragment
of the Unicode simple upper-case mapping (the only part exercised here). -/
def upChar (c : Char) : Char :=
  if 97 ≤ c.toNat ∧ c.toNat ≤ 122 then Char.ofNat (c.toNat - 32) else c

/-- Go `strings.ToUpper` on a character list. -/
def upperL (l : List Char) : List Char := l.map upChar

/-- Join a token list with single spaces (Go `strings.Join(parts, " ")`). -/
def joinSp : List (List Char) → List Char
  | [] => []
  | [t] => t
  | t :: ts => t ++ ' ' :: joinSp ts

/-- Go `strings.EqualFold`, restricted to the ASCII fragment of Unicode
simple case folding (header names here are ASCII). -/
def goEqualFold (a b : String) : Bool :=
  a.data.map (fun c => if 'A' ≤ c ∧ c ≤ 'Z' then Char.ofNat (c.toNat + 32) else c)
    == b.data.map (fun c => if 'A' ≤ c ∧ c ≤ 'Z' then Char.ofNat (c.toNat + 32) else c)

/-! ### Go `strconv` helpers -/

/-- Decimal value of a digit list (most significant first). -/
def digitsToNat (l : List Char) : Nat :=
  l.foldl (fun a c => a * 10 + (c.toNat - 48)) 0

/-- Check that a character list is one or more decimal digits and return
its value. -/
def digitsVal (l : List Char) : Option Nat :=
  if l ≠ [] ∧ l.all Char.isDigit then some (digitsToNat l) else none

/-- Go `strconv.Atoi`: optional sign, one or more decimal digits, value
within the 64-bit `int` range (overflow is an error). -/
def goAtoi (s : String) : Option Int :=
  let core : List Char → Bool → Option Int := fun l neg =>
    match digitsVal l with
    | none => none
    | some n =>
      if neg then (if (n : Int) ≤ 2 ^ 63 then some (-(n : Int)) else none)
      else (if (n : Int) < 2 ^ 63 then some (n : Int) else none)
  match s.data with
  | '+' :: ds => core ds false
  | '-' :: ds => core ds true
  | ds => core ds false

/-- Exact decimal number `num · 10 ^ exp`, the model of the `float64`
values flowing through the pipeline (parsing and arithmetic are modelled
exactly rather than with binary rounding). -/
structure Dec where
  num : Int
  exp : Int
deriving DecidableEq

/-- Rational denotation of an exact decimal. -/
def Dec.toRat (d : Dec) : ℚ := (d.num : ℚ) * (10 : ℚ) ^ d.exp

/-- Exact sum of two decimals (models `float64` addition). -/
def Dec.add (a b : Dec) : Dec :=
  if a.exp ≤ b.exp then ⟨a.num + b.num * 10 ^ (b.exp - a.exp).toNat, a.exp⟩
  else ⟨a.num * 10 ^ (a.exp - b.exp).toNat + b.num, b.exp⟩

/-- Overflow threshold of `strconv.ParseFloat`: exact magnitudes at or
above the midpoint between the largest finite `float64` and 2^1024 round
to infinity, which `ParseFloat` reports as an error. -/
def floatMaxNat : Nat := 2 ^ 1024 - 2 ^ 970

/-- Whether `num0 · 10 ^ exp0` is at or beyond the `float64` overflow
threshold. -/
def decOverflow (num0 : Nat) (exp0 : Int) : Bool :=
  if 0 ≤ exp0 then floatMaxNat ≤ num0 * 10 ^ exp0.toNat
  else floatMaxNat * 10 ^ (-exp0).toNat ≤ num0

/-- Parse an exponent suffix (after the `e`/`E`): optional sign, one or
more digits; returns the exponent and the remaining characters. -/
def parseExpSuffix (t : List Char) : Option (Int × List Char) :=
  match t with
  | '+' :: u =>
    if u.takeWhile Char.isDigit = [] then none
    else some ((digitsToNat (u.takeWhile Char.isDigit) : Int), u.dropWhile Char.isDigit)
  | '-' :: u =>
    if u.takeWhile Char.isDigit = [] then none
    else some (-(digitsToNat (u.takeWhile Char.isDigit) : Int), u.dropWhile Char.isDigit)
  | u =>
    if u.takeWhile Char.isDigit = [] then none
    else some ((digitsToNat (u.takeWhile Char.isDigit) : Int), u.dropWhile Char.isDigit)

/-- Go `strconv.ParseFloat` (64-bit), modelled with exact decimals: the
decimal grammar (optional sign, digits with optional fraction, optional
decimal exponent) with the overflow check.  The special forms (hex floats,
Inf/NaN, digit-separating underscores) are not modelled. -/
def goParseFloat (s : String) : Option Dec :=
  let l := s.data
  let signRest : Bool × List Char :=
    match l with
    | '+' :: t => (false, t)
    | '-' :: t => (true, t)
    | t => (false, t)
  let neg := signRest.1
  let l1 := signRest.2
  let intD := l1.takeWhile Char.isDigit
  let l2 := l1.dropWhile Char.isDigit
  let fracRest : List Char × List Char :=
    match l2 with
    | '.' :: t => (t.takeWhile Char.isDigit, t.dropWhile Char.isDigit)
    | t => ([], t)
  let fracD := fracRest.1
  let l3 := fracRest.2
  if intD = [] ∧ fracD = [] then none
  else
    let expRest : Option (Int × List Char) :=
      match l3 with
      | 'e' :: t => parseExpSuffix t
      | 'E' :: t => parseExpSuffix t
      | t => some (0, t)
    match expRest with
    | none => none
    | some (expVal, l4) =>
      if l4 ≠ [] then none
      else
        let num0 : Nat := digitsToNat (intD ++ fracD)
        let exp0 : Int := expVal - fracD.length
        if decOverflow num0 exp0 then none
        else some ⟨if neg then -(num0 : Int) else (num0 : Int), exp0⟩

/-- Round `n / den` to the nearest natural, ties to even (the rounding of
Go's fixed-point float formatting). -/
def rheNat (n den : Nat) : Nat :=
  let q := n / den
  let r := n % den
  if 2 * r < den then q
  else if den < 2 * r then q + 1
  else if q % 2 = 0 then q else q + 1

/-- Zero-pad a natural number to 3 digits. -/
def pad3 (n : Nat) : String :=
  if n < 10 then "00" ++ toString n
  else if n < 100 then "0" ++ toString n
  else toString n

/-- Thousandths of the magnitude of a decimal, rounded half-to-even. -/
def Dec.milli (d : Dec) : Nat :=
  if 0 ≤ d.exp + 3 then d.num.natAbs * 10 ^ (d.exp + 3).toNat
  else rheNat d.num.natAbs (10 ^ (-(d.exp + 3)).toNat)

/-- Go `fmt.Sprintf("%.3f", x)`, modelled on exact decimals (the sign of a
negative zero is not modelled). -/
def goFormatFixed3 (d : Dec) : String :=
  (if d.num < 0 then "-" else "") ++
    toString (d.milli / 1000) ++ "." ++ pad3 (d.milli % 1000)

/-- Go `fmt.Sprintf("%05s", s)`: left-pad with `'0'` to width 5, never
truncating. -/
def goPad5 (s : String) : String :=
  ⟨List.replicate (5 - s.data.length) '0' ++ s.data⟩

example : goTrimSpace "  a b " = "a b" := by decide
example : goAtoi "123" = some 123 := by decide
example : goAtoi "-12" = some (-12) := by decide
example : goAtoi "1a" = none := by decide
example : goAtoi "" = none := by decide
example : goPad5 "123" = "00123" := by decide
example : goPad5 "123456" = "123456" := by decide
example : goParseFloat "10.000" = some ⟨10000, -3⟩ := by decide
example : goParseFloat "5.500" = some ⟨5500, -3⟩ := by decide
example : goParseFloat "bad" = none := by decide
example : goFormatFixed3 (Dec.add ⟨10000, -3⟩ ⟨5500, -3⟩) = "15.500" := by decide

/-! ### Table model and stage results -/

/-- Result of one stage: the updated table together with the warnings
written to stderr (modelled as the offending values), a whole-table error
(the Go non-nil `error` return), or a runtime panic. -/
inductive StageResult (α : Type) where
  | ok : List (List α) → List α → StageResult α
  | err : String → StageResult α
  | crash : StageResult α
deriving DecidableEq

/-- Index of the first element satisfying `p` (Go header scan with
`break`). -/
def firstIdx (p : α → Bool) : List α → Option Nat
  | [] => none
  | a :: l => if p a then some 0 else (firstIdx p l).map (· + 1)

/-- Index of the last element satisfying `p` (Go header scan without
`break`: a later match overwrites the index). -/
def lastIdx (p : α → Bool) : List α → Option Nat
  | [] => none
  | a :: l =>
    match lastIdx p l with
    | some i => some (i + 1)
    | none => if p a then some 0 else none

/-- Process the data rows with a per-row transform returning the new row
and its warnings; collect rows in order and concatenate warnings. -/
def mapRowsW (f : List α → List α × List α) : List (List α) → List (List α) × List α
  | [] => ([], [])
  | r :: rs =>
    let p := f r
    let q := mapRowsW f rs
    (p.1 :: q.1, p.2 ++ q.2)

/-- Process the data rows with a per-row transform that may panic
(`none`); a panic aborts the whole stage. -/
def mapRowsC (f : List α → Option (List α × List α)) :
    List (List α) → Option (List (List α) × List α)
  | [] => some ([], [])
  | r :: rs =>
    match f r with
    | none => none
    | some p =>
      match mapRowsC f rs with
      | none => none
      | some q => some (p.1 :: q.1, p.2 ++ q.2)

/-! ### ZIP stage (`ProcessZIPs`) -/

/-- Header predicate of the ZIP stage: `strings.EqualFold(h, "ZIP")`. -/
def zipIdx (header : List String) : Option Nat :=
  firstIdx (fun h => goEqualFold h "ZIP") header

/-- Per-cell transform of the ZIP stage: trim; keep empty cells; pad
integral values with `%05s`; warn (keeping the cell) otherwise. -/
def zipCell (s : String) : String × List String :=
  let z := goTrimSpace s
  if z = "" then (s, [])
  else
    match goAtoi z with
    | some _ => (goPad5 z, [])
    | none => (s, [z])

/-- Per-row transform of the ZIP stage (defensive index guard). -/
def zipRow (i : Nat) (row : List String) : List String × List String :=
  match row[i]? with
  | some c =>
    let p := zipCell c
    (row.set i p.1, p.2)
  | none => (row, [])

/-- Go `ProcessZIPs`. -/
def ProcessZIPs (records : List (List String)) : StageResult String :=
  match records with
  | [] => .ok [] []
  | header :: rows =>
    match zipIdx header with
    | none => .err "ZIP column not found"
    | some i =>
      let p := mapRowsW (zipRow i) rows
      .ok (header :: p.1) p.2

/-! ### FirstName stage (`ProcessFirstName`) -/

/-- Header predicate of the FirstName stage:
`strings.EqualFold(h, "FullName")`. -/
def fullNameIdx (header : List String) : Option Nat :=
  firstIdx (fun h => goEqualFold h "FullName") header

/-- Per-cell transform of the FirstName stage: trim, split into fields,
upper-case the first token, re-join with single spaces; empty or
field-less cells are left as they are. -/
def firstNameCell (s : String) : String :=
  let orig := goTrimSpace s
  if orig = "" then s
  else
    match goFieldsL orig.data with
    | [] => s
    | p :: ps => ⟨joinSp (upperL p :: ps)⟩

/-- Per-row transform of the FirstName stage (defensive index guard). -/
def firstNameRow (i : Nat) (row : List String) : List String × List String :=
  match row[i]? with
  | some c => (row.set i (firstNameCell c), [])
  | none => (row, [])

/-- Go `ProcessFirstName`. -/
def ProcessFirstName (records : List (List String)) : StageResult String :=
  match records with
  | [] => .ok [] []
  | header :: rows =>
    match fullNameIdx header with
    | none => .err "FullName column not found"
    | some i =>
      let p := mapRowsW (firstNameRow i) rows
      .ok (header :: p.1) p.2

/-! ### Durations stage (`ProcessDurations` and `parseHHMMSS`) -/

/-- Split a character list on `':'` (Go `strings.Split(input, ":")`). -/
def splitColon : List Char → List (List Char)
  | [] => [[]]
  | c :: cs =>
    if c = ':' then [] :: splitColon cs
    else
      match splitColon cs with
      | t :: ts => (c :: t) :: ts
      | [] => [[c]]

/-- Go `parseHHMMSS`: exactly three colon-separated parts — `Atoi` hours,
`Atoi` minutes, `ParseFloat` seconds — summed as
`hours*3600 + minutes*60 + seconds`. -/
def parseHHMMSS (input : String) : Option Dec :=
  match splitColon input.data with
  | [hp, mp, sp] =>
    match goAtoi ⟨hp⟩ with
    | none => none
    | some hours =>
      match goAtoi ⟨mp⟩ with
      | none => none
      | some minutes =>
        match goParseFloat ⟨sp⟩ with
        | none => none
        | some seconds => some (Dec.add ⟨hours * 3600 + minutes * 60, 0⟩ seconds)
  | _ => none

/-- Per-cell transform of the Durations stage: rewrite a parsable duration
as seconds fixed to three digits, keep (and warn on) anything else. -/
def durCell (s : String) : String × List String :=
  match parseHHMMSS s with
  | some sec => (goFormatFixed3 sec, [])
  | none => (s, [s])

/-- Per-row transform of the Durations stage: the Foo cell and then the
Bar cell, each behind its own index guard. -/
def durRow (fooI barI : Nat) (row : List String) : List String × List String :=
  let step1 : List String × List String :=
    match row[fooI]? with
    | some c =>
      let p := durCell c
      (row.set fooI p.1, p.2)
    | none => (row, [])
  match step1.1[barI]? with
  | some c =>
    let p := durCell c
    (step1.1.set barI p.1, step1.2 ++ p.2)
  | none => (step1.1, step1.2)

/-- Header index of the Durations/TotalDuration stages: the switch matches
on the trimmed header name, and without a `break` the last match wins. -/
def trimNameIdx (name : String) (header : List String) : Option Nat :=
  lastIdx (fun h => goTrimSpace h == name) header

/-- Go `ProcessDurations`. -/
def ProcessDurations (records : List (List String)) : StageResult String :=
  match records with
  | [] => .ok [] []
  | header :: rows =>
    match trimNameIdx "FooDuration" header, trimNameIdx "BarDuration" header with
    | some fooI, some barI =>
      let p := mapRowsW (durRow fooI barI) rows
      .ok (header :: p.1) p.2
    | _, _ => .err "FooDuration or BarDuration column not found"

/-! ### TotalDuration stage (`ProcessTotalDuration`) -/

/-- Warning payload of the TotalDuration stage (Go prints `%v` of the
row). -/
def rowWarn (row : List String) : String :=
  "[" ++ String.intercalate " " row ++ "]"

/-- Per-row transform of the TotalDuration stage.  Unlike every other
stage it reads `newRow[fooIndex]`, `newRow[barIndex]` and writes
`newRow[totalIndex]` without the `index < len(newRow)` guard, so a row
shorter than any of the three indices panics (`none`). -/
def totalRow (fooI barI totI : Nat) (row : List String) :
    Option (List String × List String) :=
  match row[fooI]? with
  | none => none
  | some fc =>
    match row[barI]? with
    | none => none
    | some bc =>
      if totI < row.length then
        match goParseFloat (goTrimSpace fc), goParseFloat (goTrimSpace bc) with
        | some f, some b => some (row.set totI (goFormatFixed3 (Dec.add f b)), [])
        | _, _ => some (row.set totI "", [rowWarn row])
      else none

/-- Go `ProcessTotalDuration`. -/
def ProcessTotalDuration (records : List (List String)) : StageResult String :=
  match records with
  | [] => .ok [] []
  | header :: rows =>
    match trimNameIdx "FooDuration" header, trimNameIdx "BarDuration" header,
        trimNameIdx "TotalDuration" header with
    | some fooI, some barI, some totI =>
      match mapRowsC (totalRow fooI barI totI) rows with
      | none => .crash
      | some p => .ok (header :: p.1) p.2
    | _, _, _ => .err "required duration columns not found"

example : parseHHMMSS "1:02:03.500" = some ⟨3723500, -3⟩ := by decide
example : parseHHMMSS "1:02" = none := by decide
example : durCell "1:02:03.500" = ("3723.500", []) := by decide
example :
    ProcessTotalDuration [["FooDuration", "BarDuration", "TotalDuration"], []] = .crash := by
  decide
example :
    ProcessZIPs [["ZIP"], ["  123 "], ["abc"], [""]] =
      .ok [["ZIP"], ["00123"], ["abc"], [""]] ["abc"] := by decide

/-! ### Timestamp stage (`ProcessTimestamp`)

The stage parses cells with layout `"1/2/06 3:04:05 PM"` in
America/Los_Angeles and reformats them as RFC3339 in America/New_York.
The tzdata rules are modelled for the era the 2-digit years can denote
with the post-2007 US DST rule (second Sunday in March to first Sunday in
November); both zones observe DST on the same local dates, Pacific is
UTC-8 (UTC-7 in DST) and Eastern UTC-5 (UTC-4 in DST). -/

/-- Naive date-time (no zone). -/
structure GoDT where
  y : Nat
  m : Nat
  d : Nat
  hh : Nat
  mi : Nat
  ss : Nat
deriving DecidableEq

/-- Gregorian leap year. -/
def isLeap (y : Nat) : Bool := y % 4 = 0 && (y % 100 ≠ 0 || y % 400 = 0)

/-- Days in a month. -/
def daysInMonth (y m : Nat) : Nat :=
  if m = 2 then (if isLeap y then 29 else 28)
  else if m = 4 ∨ m = 6 ∨ m = 9 ∨ m = 11 then 30
  else 31

/-- Day of week (0 = Sunday), Sakamoto's method. -/
def dow (y m d : Nat) : Nat :=
  let t := [0, 3, 2, 5, 0, 3, 5, 1, 4, 6, 2, 4]
  let y1 := if m < 3 then y - 1 else y
  (y1 + y1 / 4 - y1 / 100 + y1 / 400 + t.getD (m - 1) 0 + d) % 7

/-- Day of the n-th Sunday of a month. -/
def nthSun (y m n : Nat) : Nat :=
  1 + (7 - dow y m 1) % 7 + 7 * (n - 1)

/-- Lexicographic "before month/day/minute cut-off" test. -/
def beforeCut (m d mm cm cd cmm : Nat) : Bool :=
  m < cm || (m = cm && (d < cd || (d = cd && mm < cmm)))

/-- US DST window in wall-clock terms: from the second Sunday of March
02:00 to the first Sunday of November 02:00 (used to interpret a parsed
Pacific wall time). -/
def usDstWall (y m d mm : Nat) : Bool :=
  (!beforeCut m d mm 3 (nthSun y 3 2) 120) && beforeCut m d mm 11 (nthSun y 11 1) 120

/-- US Eastern DST window in UTC terms: from the second Sunday of March
07:00 UTC (02:00 EST) to the first Sunday of November 06:00 UTC
(02:00 EDT). -/
def eastDstUTC (y m d mm : Nat) : Bool :=
  (!beforeCut m d mm 3 (nthSun y 3 2) 420) && beforeCut m d mm 11 (nthSun y 11 1) 360

/-- Following calendar day. -/
def nextDay (y m d : Nat) : Nat × Nat × Nat :=
  if d < daysInMonth y m then (y, m, d + 1)
  else if m < 12 then (y, m + 1, 1)
  else (y + 1, 1, 1)

/-- Previous calendar day. -/
def prevDay (y m d : Nat) : Nat × Nat × Nat :=
  if 1 < d then (y, m, d - 1)
  else if 1 < m then (y, m - 1, daysInMonth y (m - 1))
  else (y - 1, 12, 31)

/-- Add `delta` (< 1440) minutes to a date-time. -/
def addMin (dt : GoDT) (delta : Nat) : GoDT :=
  let t := dt.hh * 60 + dt.mi + delta
  if t < 1440 then ⟨dt.y, dt.m, dt.d, t / 60, t % 60, dt.ss⟩
  else
    let p := nextDay dt.y dt.m dt.d
    ⟨p.1, p.2.1, p.2.2, (t - 1440) / 60, (t - 1440) % 60, dt.ss⟩

/-- Subtract `delta` (< 1440) minutes from a date-time. -/
def subMin (dt : GoDT) (delta : Nat) : GoDT :=
  let mm := dt.hh * 60 + dt.mi
  if delta ≤ mm then ⟨dt.y, dt.m, dt.d, (mm - delta) / 60, (mm - delta) % 60, dt.ss⟩
  else
    let p := prevDay dt.y dt.m dt.d
    ⟨p.1, p.2.1, p.2.2, (mm + 1440 - delta) / 60, (mm + 1440 - delta) % 60, dt.ss⟩

/-- Read 1 or 2 digits (Go layout unit `"1"`, `"2"`, `"3"`). -/
def getNum12 (l : List Char) : Option (Nat × List Char) :=
  match l with
  | c1 :: c2 :: r =>
    if c1.isDigit then
      (if c2.isDigit then some ((c1.toNat - 48) * 10 + (c2.toNat - 48), r)
       else some (c1.toNat - 48, c2 :: r))
    else none
  | [c1] => if c1.isDigit then some (c1.toNat - 48, []) else none
  | [] => none

/-- Read exactly 2 digits (Go layout units `"06"`, `"04"`, `"05"`). -/
def getNum2 (l : List Char) : Option (Nat × List Char) :=
  match l with
  | c1 :: c2 :: r =>
    if c1.isDigit ∧ c2.isDigit then some ((c1.toNat - 48) * 10 + (c2.toNat - 48), r)
    else none
  | _ => none

/-- Expect one literal character. -/
def expectCh (c : Char) (l : List Char) : Option (List Char) :=
  match l with
  | c1 :: r => if c1 = c then some r else none
  | [] => none

/-- Assemble and range-validate the parsed components (Go's check of
month, day-per-month, 12-hour clock, minute, second) and apply the
AM/PM adjustment. -/
def mkGoDT (mo da yy h12 mi ss : Nat) (pm : Bool) : Option GoDT :=
  let y := if 69 ≤ yy then 1900 + yy else 2000 + yy
  if 1 ≤ mo ∧ mo ≤ 12 ∧ 1 ≤ da ∧ da ≤ daysInMonth y mo ∧ h12 ≤ 12 ∧ mi ≤ 59 ∧ ss ≤ 59 then
    let hh := if pm then (if h12 < 12 then h12 + 12 else h12)
              else (if h12 = 12 then 0 else h12)
    some ⟨y, mo, da, hh, mi, ss⟩
  else none

/-- Go `time.Parse` with layout `"1/2/06 3:04:05 PM"`: month/day with 1-2
digits, 2-digit year (69..99 ↦ 19xx, otherwise 20xx), 12-hour clock,
2-digit minute and second, literal `"AM"`/`"PM"`, whole input consumed,
with Go's range validation. -/
def parseMDY (s : String) : Option GoDT :=
  match getNum12 s.data with
  | none => none
  | some (mo, l1) =>
    match expectCh '/' l1 with
    | none => none
    | some l2 =>
      match getNum12 l2 with
      | none => none
      | some (da, l3) =>
        match expectCh '/' l3 with
        | none => none
        | some l4 =>
          match getNum2 l4 with
          | none => none
          | some (yy, l5) =>
            match expectCh ' ' l5 with
            | none => none
            | some l6 =>
              match getNum12 l6 with
              | none => none
              | some (h12, l7) =>
                match expectCh ':' l7 with
                | none => none
                | some l8 =>
                  match getNum2 l8 with
                  | none => none
                  | some (mi, l9) =>
                    match expectCh ':' l9 with
                    | none => none
                    | some l10 =>
                      match getNum2 l10 with
                      | none => none
                      | some (ss, l11) =>
                        match expectCh ' ' l11 with
                        | none => none
                        | some l12 =>
                          match l12 with
                          | ['P', 'M'] => mkGoDT mo da yy h12 mi ss true
                          | ['A', 'M'] => mkGoDT mo da yy h12 mi ss false
                          | _ => none

/-- Convert a Pacific wall time to UTC (offset -480 min, -420 in DST). -/
def pacToUTC (dt : GoDT) : GoDT :=
  addMin dt (if usDstWall dt.y dt.m dt.d (dt.hh * 60 + dt.mi) then 420 else 480)

/-- Convert a UTC time to Eastern wall time; also report whether Eastern
DST applies (offset -300 min, -240 in DST). -/
def utcToEast (u : GoDT) : GoDT × Bool :=
  let dst := eastDstUTC u.y u.m u.d (u.hh * 60 + u.mi)
  (subMin u (if dst then 240 else 300), dst)

/-- Convert an Eastern wall time back to UTC (for instant comparison). -/
def eastToUTC (e : GoDT) (dst : Bool) : GoDT :=
  addMin e (if dst then 240 else 300)

/-- Zero-pad a natural number to 2 digits. -/
def pad2 (n : Nat) : String := if n < 10 then "0" ++ toString n else toString n

/-- Zero-pad a natural number to 4 digits. -/
def pad4 (n : Nat) : String :=
  if n < 10 then "000" ++ toString n
  else if n < 100 then "00" ++ toString n
  else if n < 1000 then "0" ++ toString n
  else toString n

/-- Format an Eastern wall time as RFC3339 with its UTC offset. -/
def fmtRFC3339East (e : GoDT) (dst : Bool) : String :=
  pad4 e.y ++ "-" ++ pad2 e.m ++ "-" ++ pad2 e.d ++ "T" ++
    pad2 e.hh ++ ":" ++ pad2 e.mi ++ ":" ++ pad2 e.ss ++
    (if dst then "-04:00" else "-05:00")

/-- Per-cell transform of the Timestamp stage. -/
def timestampCell (s : String) : Option String :=
  (parseMDY s).map fun dt =>
    let u := pacToUTC dt
    let e := utcToEast u
    fmtRFC3339East e.1 e.2

/-- Per-row transform of the Timestamp stage (defensive index guard;
unparsable cells are kept and warned about). -/
def timestampRow (i : Nat) (row : List String) : List String × List String :=
  match row[i]? with
  | some c =>
    match timestampCell c with
    | some v => (row.set i v, [])
    | none => (row, [c])
  | none => (row, [])

/-- Header predicate of the Timestamp stage: exact match `"Timestamp"`. -/
def timestampIdx (header : List String) : Option Nat :=
  firstIdx (fun h => h == "Timestamp") header

/-- Go `ProcessTimestamp` (the timezone database loads are assumed to
succeed, as they do with Go's embedded tzdata). -/
def ProcessTimestamp (records : List (List String)) : StageResult String :=
  match records with
  | [] => .ok [] []
  | header :: rows =>
    match timestampIdx header with
    | none => .err "timestamp column not found"
    | some i =>
      let p := mapRowsW (timestampRow i) rows
      .ok (header :: p.1) p.2

example : timestampCell "3/10/24 2:30:00 PM" = some "2024-03-10T17:30:00-04:00" := by decide
example : timestampCell "not a date" = none := by decide

/-! ### Byte-level model for the Address and Notes stages

These two stages depend on UTF-8 validity of the raw bytes, so their cells
are modelled as byte lists. -/

/-- UTF-8 lead byte classification: number of continuation bytes and the
accepted range of the first continuation byte (continuations after the
first are always 0x80..0xBF).  `none` for bytes that cannot start a
sequence. -/
def leadInfo (b : Nat) : Option (Nat × Nat × Nat) :=
  if 0xC2 ≤ b ∧ b ≤ 0xDF then some (1, 0x80, 0xBF)
  else if b = 0xE0 then some (2, 0xA0, 0xBF)
  else if 0xE1 ≤ b ∧ b ≤ 0xEC then some (2, 0x80, 0xBF)
  else if b = 0xED then some (2, 0x80, 0x9F)
  else if 0xEE ≤ b ∧ b ≤ 0xEF then some (2, 0x80, 0xBF)
  else if b = 0xF0 then some (3, 0x90, 0xBF)
  else if 0xF1 ≤ b ∧ b ≤ 0xF3 then some (3, 0x80, 0xBF)
  else if b = 0xF4 then some (3, 0x80, 0x8F)
  else none

/-- Acceptable continuation byte test. -/
def cont (lo hi c : Nat) : Bool := lo ≤ c && c ≤ hi

/-- Go `utf8.ValidString` on the byte sequence. -/
def utf8Valid : List Nat → Bool
  | [] => true
  | b :: rest =>
    if b < 0x80 then utf8Valid rest
    else
      match leadInfo b with
      | none => false
      | some (k, lo, hi) =>
        match k, rest with
        | 1, c1 :: r => cont lo hi c1 && utf8Valid r
        | 2, c1 :: c2 :: r =>
          cont lo hi c1 && cont 0x80 0xBF c2 && utf8Valid r
        | 3, c1 :: c2 :: c3 :: r =>
          cont lo hi c1 && cont 0x80 0xBF c2 && cont 0x80 0xBF c3 && utf8Valid r
        | _, _ => false

/-- UTF-8 encoding of U+FFFD. -/
def fffd : List Nat := [0xEF, 0xBF, 0xBD]

/-- Fuelled worker for `utf8Replace` (the fuel only needs to dominate the
list length; it makes the reprocessing recursion structural). -/
def utf8ReplaceF : Nat → List Nat → List Nat
  | 0, _ => []
  | _ + 1, [] => []
  | fuel + 1, b :: rest =>
    if b < 0x80 then b :: utf8ReplaceF fuel rest
    else
      match leadInfo b with
      | none => fffd ++ utf8ReplaceF fuel rest
      | some (k, lo, hi) =>
        match k, rest with
        | 1, c1 :: r1 =>
          if cont lo hi c1 then b :: c1 :: utf8ReplaceF fuel r1
          else fffd ++ utf8ReplaceF fuel (c1 :: r1)
        | 2, c1 :: r1 =>
          if cont lo hi c1 then
            match r1 with
            | c2 :: r2 =>
              if cont 0x80 0xBF c2 then b :: c1 :: c2 :: utf8ReplaceF fuel r2
              else fffd ++ utf8ReplaceF fuel (c2 :: r2)
            | [] => fffd
          else fffd ++ utf8ReplaceF fuel (c1 :: r1)
        | 3, c1 :: r1 =>
          if cont lo hi c1 then
            match r1 with
            | c2 :: r2 =>
              if cont 0x80 0xBF c2 then
                match r2 with
                | c3 :: r3 =>
                  if cont 0x80 0xBF c3 then b :: c1 :: c2 :: c3 :: utf8ReplaceF fuel r3
                  else fffd ++ utf8ReplaceF fuel (c3 :: r3)
                | [] => fffd
              else fffd ++ utf8ReplaceF fuel (c2 :: r2)
            | [] => fffd
          else fffd ++ utf8ReplaceF fuel (c1 :: r1)
        | _, _ => fffd ++ utf8ReplaceF fuel rest

/-- The replacing UTF-8 decoder of `golang.org/x/text`
(`unicode.UTF8.NewDecoder`), which implements the WHATWG UTF-8 decode
algorithm: valid sequences are copied verbatim; each maximal ill-formed
subpart is replaced by one U+FFFD, and the byte that breaks a sequence is
reconsidered from scratch. -/
def utf8Replace (l : List Nat) : List Nat := utf8ReplaceF l.length l

/-- ASCII-fragment byte lowering for `strings.EqualFold` on headers. -/
def bLower (b : Nat) : Nat := if 65 ≤ b ∧ b ≤ 90 then b + 32 else b

/-- Go `strings.EqualFold` on byte strings (ASCII fragment). -/
def bEqualFold (a b : List Nat) : Bool := a.map bLower == b.map bLower

/-- Byte string of an ASCII name. -/
def bstr (s : String) : List Nat := s.data.map Char.toNat

/-- Header predicate of the Address stage. -/
def addressIdx (header : List (List Nat)) : Option Nat :=
  firstIdx (fun h => bEqualFold h (bstr "Address")) header

/-- Per-row transform of the Address stage: purely diagnostic — the row is
returned unchanged, with a warning for an invalid cell. -/
def addressRow (i : Nat) (row : List (List Nat)) : List (List Nat) × List (List Nat) :=
  match row[i]? with
  | some c => (row, if utf8Valid c then [] else [c])
  | none => (row, [])

/-- Go `ProcessAddress`. -/
def ProcessAddress (records : List (List (List Nat))) : StageResult (List Nat) :=
  match records with
  | [] => .ok [] []
  | header :: rows =>
    match addressIdx header with
    | none => .err "address column not found"
    | some i =>
      let p := mapRowsW (addressRow i) rows
      .ok (header :: p.1) p.2

/-- Header predicate of the Notes stage. -/
def notesIdx (header : List (List Nat)) : Option Nat :=
  firstIdx (fun h => bEqualFold h (bstr "Notes")) header

/-- Go `transform.String(unicode.UTF8.NewDecoder(), val)`: the decoder
only replaces and never fails, so the result is always present (the code's
error branch is unreachable). -/
def notesClean (c : List Nat) : Option (List Nat) := some (utf8Replace c)

/-- Per-row transform of the Notes stage: valid cells untouched; invalid
cells replaced by their cleaned form; a cleaning error would keep the cell
and warn. -/
def notesRow (i : Nat) (row : List (List Nat)) : List (List Nat) × List (List Nat) :=
  match row[i]? with
  | some c =>
    if utf8Valid c then (row, [])
    else
      match notesClean c with
      | some cleaned => (row.set i cleaned, [])
      | none => (row, [c])
  | none => (row, [])

/-- Go `ProcessNotes`. -/
def ProcessNotes (records : List (List (List Nat))) : StageResult (List Nat) :=
  match records with
  | [] => .ok [] []
  | header :: rows =>
    match notesIdx header with
    | none => .err "notes column not found"
    | some i =>
      let p := mapRowsW (notesRow i) rows
      .ok (header :: p.1) p.2

example : utf8Valid [0x61, 0xC3, 0xA9] = true := by decide
example : utf8Valid [0x61, 0xFF, 0x62] = false := by decide
example : utf8Replace [0x61, 0xFF, 0x62] = [0x61, 0xEF, 0xBF, 0xBD, 0x62] := by decide
example : utf8Replace [0xE1, 0xA0, 0x61] = [0xEF, 0xBF, 0xBD, 0x61] := by decide

/-- Whether a stage result is the whole-table error outcome. -/
def StageResult.isErr : StageResult α → Bool
  | .err _ => true
  | _ => false

/-! ### Helper lemmas -/

theorem firstIdx_none_of {p : α → Bool} {l : List α}
    (h : ∀ a ∈ l, p a = false) : firstIdx p l = none := by
  induction l with
  | nil => rfl
  | cons a l ih =>
    have ha := h a (List.mem_cons_self a l)
    simp only [firstIdx, ha, Bool.false_eq_true, if_false,
      ih fun x hx => h x (List.mem_cons_of_mem a hx), Option.map_none']

theorem firstIdx_isSome_of {p : α → Bool} {l : List α}
    (h : ∃ a ∈ l, p a = true) : (firstIdx p l).isSome = true := by
  induction l with
  | nil => simp at h
  | cons a l ih =>
    by_cases ha : p a
    · simp [firstIdx, ha]
    · simp only [firstIdx, ha, if_false]
      obtain ⟨x, hx, hpx⟩ := h
      rcases List.mem_cons.mp hx with rfl | hx'
      · exact absurd hpx (by simpa using ha)
      · have := ih ⟨x, hx', hpx⟩
        cases hh : firstIdx p l with
        | none => rw [hh] at this; simp at this
        | some i => simp [hh]

theorem lastIdx_none_of {p : α → Bool} {l : List α}
    (h : ∀ a ∈ l, p a = false) : lastIdx p l = none := by
  induction l with
  | nil => rfl
  | cons a l ih =>
    have ha := h a (List.mem_cons_self a l)
    simp only [lastIdx, ih fun x hx => h x (List.mem_cons_of_mem a hx), ha,
      Bool.false_eq_true, if_false]

theorem lastIdx_isSome_of {p : α → Bool} {l : List α}
    (h : ∃ a ∈ l, p a = true) : (lastIdx p l).isSome = true := by
  induction l with
  | nil => simp at h
  | cons a l ih =>
    simp only [lastIdx]
    cases hh : lastIdx p l with
    | some i => simp
    | none =>
      obtain ⟨x, hx, hpx⟩ := h
      rcases List.mem_cons.mp hx with rfl | hx'
      · simp [hpx]
      · have := ih ⟨x, hx', hpx⟩
        rw [hh] at this; simp at this

theorem lastIdx_pred {p : α → Bool} {l : List α} {i : Nat}
    (h : lastIdx p l = some i) : ∃ hh : i < l.length, p (l.get ⟨i, hh⟩) = true := by
  induction l generalizing i with
  | nil => cases h
  | cons a l ih =>
    simp only [lastIdx] at h
    cases hh : lastIdx p l with
    | some j =>
      rw [hh] at h
      injection h with h'
      subst h'
      obtain ⟨hlt, hp⟩ := ih hh
      exact ⟨by simpa using Nat.succ_lt_succ hlt, by simpa using hp⟩
    | none =>
      rw [hh] at h
      by_cases hp : p a
      · simp only [hp, if_true] at h
        injection h with h'
        subst h'
        exact ⟨by simp, hp⟩
      · simp [hp] at h

theorem mapRowsW_eq (f : List α → List α × List α) (rows : List (List α)) :
    mapRowsW f rows =
      (rows.map fun r => (f r).1, rows.flatMap fun r => (f r).2) := by
  induction rows with
  | nil => rfl
  | cons r rs ih => simp [mapRowsW, ih]

theorem toNat_ofNat_valid (n : Nat) (h : n < 0xD800) : (Char.ofNat n).toNat = n := by
  rw [Char.ofNat, dif_pos (Or.inl h)]
  simp [Char.ofNatAux, Char.toNat, UInt32.toNat, UInt32.ofNat', Fin.ofNat']

/-! ### Claim theorems -/

/-- C10: on the empty table (zero rows, hence no header) every one of the
seven stages returns the table unchanged with no error, even though its
required columns are absent. -/
theorem C10_empty_table_all_stages_ok :
    ProcessTimestamp [] = .ok [] [] ∧
    ProcessZIPs [] = .ok [] [] ∧
    ProcessFirstName [] = .ok [] [] ∧
    ProcessAddress [] = .ok [] [] ∧
    ProcessDurations [] = .ok [] [] ∧
    ProcessTotalDuration [] = .ok [] [] ∧
    ProcessNotes [] = .ok [] [] :=
  ⟨rfl, rfl, rfl, rfl, rfl, rfl, rfl⟩

/-- C1: the claim that every stage indexes defensively on ragged rows
fails on the code.  `ProcessTotalDuration` reads `newRow[fooIndex]`,
`newRow[barIndex]` and writes `newRow[totalIndex]` without the
`index < len(newRow)` guard the other six stages use, so its required
columns plus one data row shorter than those indices (here an empty row)
make it panic instead of passing the row through; the six guarded stages
do pass the same shape through unchanged. -/
theorem C1_total_duration_panics_on_ragged_row :
    ProcessTotalDuration [["FooDuration", "BarDuration", "TotalDuration"], []] = .crash ∧
    ProcessTimestamp [["Timestamp"], []] = .ok [["Timestamp"], []] [] ∧
    ProcessZIPs [["ZIP"], []] = .ok [["ZIP"], []] [] ∧
    ProcessFirstName [["FullName"], []] = .ok [["FullName"], []] [] ∧
    ProcessAddress [[bstr "Address"], []] = .ok [[bstr "Address"], []] [] ∧
    ProcessDurations [["FooDuration", "BarDuration"], []] =
      .ok [["FooDuration", "BarDuration"], []] [] ∧
    ProcessNotes [[bstr "Notes"], []] = .ok [[bstr "Notes"], []] [] := by
  refine ⟨by decide, by decide, by decide, by decide, by decide, by decide, by decide⟩

/-- C2: on a non-empty table, a stage whose required column name is
absent from the header row (under that stage's matching rule) returns the
whole-table error — the `err` outcome carries no table and no per-row
warnings — and when a stage's required columns are all present the stage
does not return an error. -/
theorem C2_missing_column_is_whole_table_error :
    (∀ (header : List String) (rows : List (List String)),
      ((∀ h ∈ header, (h == "Timestamp") = false) →
        ProcessTimestamp (header :: rows) = .err "timestamp column not found") ∧
      ((∀ h ∈ header, goEqualFold h "ZIP" = false) →
        ProcessZIPs (header :: rows) = .err "ZIP column not found") ∧
      ((∀ h ∈ header, goEqualFold h "FullName" = false) →
        ProcessFirstName (header :: rows) = .err "FullName column not found") ∧
      ((∀ h ∈ header, (goTrimSpace h == "FooDuration") = false) ∨
          (∀ h ∈ header, (goTrimSpace h == "BarDuration") = false) →
        ProcessDurations (header :: rows) =
          .err "FooDuration or BarDuration column not found") ∧
      ((∀ h ∈ header, (goTrimSpace h == "FooDuration") = false) ∨
          (∀ h ∈ header, (goTrimSpace h == "BarDuration") = false) ∨
          (∀ h ∈ header, (goTrimSpace h == "TotalDuration") = false) →
        ProcessTotalDuration (header :: rows) =
          .err "required duration columns not found") ∧
      ((∃ h ∈ header, (h == "Timestamp") = true) →
        (ProcessTimestamp (header :: rows)).isErr = false) ∧
      ((∃ h ∈ header, goEqualFold h "ZIP" = true) →
        (ProcessZIPs (header :: rows)).isErr = false) ∧
      ((∃ h ∈ header, goEqualFold h "FullName" = true) →
        (ProcessFirstName (header :: rows)).isErr = false) ∧
      ((∃ h ∈ header, (goTrimSpace h == "FooDuration") = true) →
        (∃ h ∈ header, (goTrimSpace h == "BarDuration") = true) →
        (ProcessDurations (header :: rows)).isErr = false) ∧
      ((∃ h ∈ header, (goTrimSpace h == "FooDuration") = true) →
        (∃ h ∈ header, (goTrimSpace h == "BarDuration") = true) →
        (∃ h ∈ header, (goTrimSpace h == "TotalDuration") = true) →
        (ProcessTotalDuration (header :: rows)).isErr = false)) ∧
    (∀ (bheader : List (List Nat)) (brows : List (List (List Nat))),
      ((∀ h ∈ bheader, bEqualFold h (bstr "Address") = false) →
        ProcessAddress (bheader :: brows) = .err "address column not found") ∧
      ((∀ h ∈ bheader, bEqualFold h (bstr "Notes") = false) →
        ProcessNotes (bheader :: brows) = .err "notes column not found") ∧
      ((∃ h ∈ bheader, bEqualFold h (bstr "Address") = true) →
        (ProcessAddress (bheader :: brows)).isErr = false) ∧
      ((∃ h ∈ bheader, bEqualFold h (bstr "Notes") = true) →
        (ProcessNotes (bheader :: brows)).isErr = false)) := by
  constructor
  · intro header rows
    refine ⟨?_, ?_, ?_, ?_, ?_, ?_, ?_, ?_, ?_, ?_⟩
    · intro h
      have hn : timestampIdx header = none := firstIdx_none_of h
      simp [ProcessTimestamp, hn]
    · intro h
      have hn : zipIdx header = none := firstIdx_none_of h
      simp [ProcessZIPs, hn]
    · intro h
      have hn : fullNameIdx header = none := firstIdx_none_of h
      simp [ProcessFirstName, hn]
    · intro h
      rcases h with h | h
      · have hn : trimNameIdx "FooDuration" header = none := lastIdx_none_of h
        cases hb : trimNameIdx "BarDuration" header <;> simp [ProcessDurations, hn, hb]
      · have hn : trimNameIdx "BarDuration" header = none := lastIdx_none_of h
        cases hf : trimNameIdx "FooDuration" header <;> simp [ProcessDurations, hn, hf]
    · intro h
      rcases h with h | h | h
      · have hn : trimNameIdx "FooDuration" header = none := lastIdx_none_of h
        cases hb : trimNameIdx "BarDuration" header <;>
          cases ht : trimNameIdx "TotalDuration" header <;>
            simp [ProcessTotalDuration, hn, hb, ht]
      · have hn : trimNameIdx "BarDuration" header = none := lastIdx_none_of h
        cases hf : trimNameIdx "FooDuration" header <;>
          cases ht : trimNameIdx "TotalDuration" header <;>
            simp [ProcessTotalDuration, hn, hf, ht]
      · have hn : trimNameIdx "TotalDuration" header = none := lastIdx_none_of h
        cases hf : trimNameIdx "FooDuration" header <;>
          cases hb : trimNameIdx "BarDuration" header <;>
            simp [ProcessTotalDuration, hn, hf, hb]
    · intro h
      obtain ⟨i, hi⟩ := Option.isSome_iff_exists.mp (firstIdx_isSome_of h)
      simp [ProcessTimestamp, timestampIdx] at hi ⊢
      simp [hi, StageResult.isErr]
    · intro h
      obtain ⟨i, hi⟩ := Option.isSome_iff_exists.mp (firstIdx_isSome_of h)
      simp [ProcessZIPs, zipIdx] at hi ⊢
      simp [hi, StageResult.isErr]
    · intro h
      obtain ⟨i, hi⟩ := Option.isSome_iff_exists.mp (firstIdx_isSome_of h)
      simp [ProcessFirstName, fullNameIdx] at hi ⊢
      simp [hi, StageResult.isErr]
    · intro hf hb
      obtain ⟨i, hi⟩ := Option.isSome_iff_exists.mp (lastIdx_isSome_of hf)
      obtain ⟨j, hj⟩ := Option.isSome_iff_exists.mp (lastIdx_isSome_of hb)
      simp [ProcessDurations, trimNameIdx] at hi hj ⊢
      simp [hi, hj, StageResult.isErr]
    · intro hf hb ht
      obtain ⟨i, hi⟩ := Option.isSome_iff_exists.mp (lastIdx_isSome_of hf)
      obtain ⟨j, hj⟩ := Option.isSome_iff_exists.mp (lastIdx_isSome_of hb)
      obtain ⟨k, hk⟩ := Option.isSome_iff_exists.mp (lastIdx_isSome_of ht)
      simp [ProcessTotalDuration, trimNameIdx] at hi hj hk ⊢
      cases hM : mapRowsC (totalRow i j k) rows <;>
        simp [hi, hj, hk, hM, StageResult.isErr]
  · intro bheader brows
    refine ⟨?_, ?_, ?_, ?_⟩
    · intro h
      have hn : addressIdx bheader = none := firstIdx_none_of h
      simp [ProcessAddress, hn]
    · intro h
      have hn : notesIdx bheader = none := firstIdx_none_of h
      simp [ProcessNotes, hn]
    · intro h
      obtain ⟨i, hi⟩ := Option.isSome_iff_exists.mp (firstIdx_isSome_of h)
      simp [ProcessAddress, addressIdx] at hi ⊢
      simp [hi, StageResult.isErr]
    · intro h
      obtain ⟨i, hi⟩ := Option.isSome_iff_exists.mp (firstIdx_isSome_of h)
      simp [ProcessNotes, notesIdx] at hi ⊢
      simp [hi, StageResult.isErr]

/-- C2 witness: a header missing `Timestamp` aborts the Timestamp stage
with a whole-table error, and on a header holding every required column no
stage errs. -/
theorem C2_missing_column_witness :
    ProcessTimestamp [["ZIP"]] = .err "timestamp column not found" ∧
    (ProcessTimestamp
      [["Timestamp", "ZIP", "FullName", "FooDuration", "BarDuration", "TotalDuration"]]).isErr
        = false ∧
    (ProcessZIPs
      [["Timestamp", "ZIP", "FullName", "FooDuration", "BarDuration", "TotalDuration"]]).isErr
        = false ∧
    (ProcessFirstName
      [["Timestamp", "ZIP", "FullName", "FooDuration", "BarDuration", "TotalDuration"]]).isErr
        = false ∧
    (ProcessDurations
      [["Timestamp", "ZIP", "FullName", "FooDuration", "BarDuration", "TotalDuration"]]).isErr
        = false ∧
    (ProcessTotalDuration
      [["Timestamp", "ZIP", "FullName", "FooDuration", "BarDuration", "TotalDuration"]]).isErr
        = false ∧
    (ProcessAddress [[bstr "Address", bstr "Notes"]]).isErr = false ∧
    (ProcessNotes [[bstr "Address", bstr "Notes"]]).isErr = false := by
  have hs := (C2_missing_column_is_whole_table_error.1
    ["Timestamp", "ZIP", "FullName", "FooDuration", "BarDuration", "TotalDuration"] [])
  have hb := (C2_missing_column_is_whole_table_error.2 [bstr "Address", bstr "Notes"] [])
  refine ⟨(C2_missing_column_is_whole_table_error.1 ["ZIP"] []).1 (by decide),
    hs.2.2.2.2.2.1 (by decide), hs.2.2.2.2.2.2.1 (by decide),
    hs.2.2.2.2.2.2.2.1 (by decide), hs.2.2.2.2.2.2.2.2.1 (by decide) (by decide),
    hs.2.2.2.2.2.2.2.2.2 (by decide) (by decide) (by decide),
    hb.2.2.1 (by decide), hb.2.2.2 (by decide)⟩

/-- C3: the ZIP stage trims each reachable cell; an empty trimmed value is
kept with no warning; a trimmed value accepted by the integer parse is
rewritten as the trimmed string left-padded with `'0'` to 5 characters
(already-wide values keep their natural width — the padded string is the
trimmed value with only zeros prepended, so padding never truncates); a
non-integer trimmed value is kept with a warning.  `"123"` becomes
`"00123"` while `"12345"` and `"123456"` stay unchanged. -/
theorem C3_zip_stage_padding :
    (∀ cell : String,
      (goTrimSpace cell = "" → zipCell cell = (cell, [])) ∧
      (∀ n, goAtoi (goTrimSpace cell) = some n → goTrimSpace cell ≠ "" →
        zipCell cell = (goPad5 (goTrimSpace cell), []) ∧
        (goPad5 (goTrimSpace cell)).data =
          List.replicate (5 - (goTrimSpace cell).data.length) '0' ++
            (goTrimSpace cell).data ∧
        (goPad5 (goTrimSpace cell)).data.length =
          max 5 (goTrimSpace cell).data.length) ∧
      (goAtoi (goTrimSpace cell) = none → goTrimSpace cell ≠ "" →
        zipCell cell = (cell, [goTrimSpace cell]))) ∧
    (∀ (header : List String) rows i, zipIdx header = some i →
      ProcessZIPs (header :: rows) =
        .ok (header :: rows.map fun r => (zipRow i r).1)
          (rows.flatMap fun r => (zipRow i r).2)) ∧
    zipCell "123" = ("00123", []) ∧
    zipCell "12345" = ("12345", []) ∧
    zipCell "123456" = ("123456", []) := by
  refine ⟨?_, ?_, by decide, by decide, by decide⟩
  · intro cell
    refine ⟨?_, ?_, ?_⟩
    · intro h
      simp [zipCell, h]
    · intro n hn hne
      refine ⟨by simp [zipCell, hne, hn], rfl, ?_⟩
      simp only [goPad5, List.length_append, List.length_replicate]
      omega
    · intro hn hne
      simp [zipCell, hne, hn]
  · intro header rows i hi
    simp [ProcessZIPs, hi, mapRowsW_eq]

/-- C3 witness: on a table whose ZIP column holds `" 123 "` the stage pads
the trimmed value to `"00123"` with no warning. -/
theorem C3_zip_stage_padding_witness :
    zipCell " 123 " = (goPad5 (goTrimSpace " 123 "), []) ∧
    ProcessZIPs [["ZIP"], [" 123 "]] = .ok [["ZIP"], ["00123"]] [] := by
  constructor
  · exact ((C3_zip_stage_padding.1 " 123 ").2.1 123 (by decide) (by decide)).1
  · refine (C3_zip_stage_padding.2.1 ["ZIP"] [[" 123 "]] 0 (by decide)).trans ?_
    decide

/-- C9: the Address stage never modifies any cell — on a table whose
header holds an Address column the output table is the input table, and
its only effect is the warning list naming the cells that are not valid
UTF-8. -/
theorem C9_address_stage_read_only :
    ∀ (header : List (List Nat)) rows i, addressIdx header = some i →
      ProcessAddress (header :: rows) =
        .ok (header :: rows)
          (rows.flatMap fun r =>
            match r[i]? with
            | some c => if utf8Valid c then [] else [c]
            | none => []) := by
  intro header rows i hi
  have h1 : ∀ r : List (List Nat), (addressRow i r).1 = r := by
    intro r
    cases hc : r[i]? <;> simp [addressRow, hc]
  have h2 : ∀ r : List (List Nat), (addressRow i r).2 =
      (match r[i]? with
       | some c => if utf8Valid c then [] else [c]
       | none => []) := by
    intro r
    cases hc : r[i]? <;> simp [addressRow, hc]
  simp only [ProcessAddress, hi, mapRowsW_eq]
  simp [h1, h2]

/-- C9 witness: a table with one invalid-UTF-8 address cell and one valid
one comes back cell-for-cell identical, with a single warning for the
invalid cell. -/
theorem C9_address_stage_read_only_witness :
    ProcessAddress [[bstr "Address"], [[0xFF]], [bstr "ok"]] =
      .ok [[bstr "Address"], [[0xFF]], [bstr "ok"]] [[0xFF]] := by
  refine (C9_address_stage_read_only (bstr "Address" :: []) [[[0xFF]], [bstr "ok"]] 0
    (by decide)).trans ?_
  decide

theorem Dec.toRat_add (a b : Dec) : (Dec.add a b).toRat = a.toRat + b.toRat := by
  have key : ∀ (x y : Int) (e f : Int), e ≤ f →
      ((x + y * 10 ^ (f - e).toNat : Int) : ℚ) * (10 : ℚ) ^ e
        = (x : ℚ) * (10 : ℚ) ^ e + (y : ℚ) * (10 : ℚ) ^ f := by
    intro x y e f hef
    push_cast
    have hpow : ((10 : ℚ) ^ (f - e).toNat) * (10 : ℚ) ^ e = (10 : ℚ) ^ f := by
      rw [← zpow_natCast (10 : ℚ), ← zpow_add₀ (by norm_num : (10 : ℚ) ≠ 0)]
      congr 1
      omega
    calc ((x : ℚ) + y * 10 ^ (f - e).toNat) * (10 : ℚ) ^ e
        = (x : ℚ) * 10 ^ e + y * (10 ^ (f - e).toNat * (10 : ℚ) ^ e) := by ring
      _ = (x : ℚ) * 10 ^ e + y * (10 : ℚ) ^ f := by rw [hpow]
  unfold Dec.add
  by_cases h : a.exp ≤ b.exp
  · simp only [if_pos h, Dec.toRat]
    exact key a.num b.num a.exp b.exp h
  · simp only [if_neg h, Dec.toRat]
    have hba := key b.num a.num b.exp a.exp (by omega)
    rw [add_comm ((a.num : ℚ) * _)]
    rw [← hba]
    congr 1
    push_cast
    ring

/-- C4: the TotalDuration stage trims and float-parses the FooDuration and
BarDuration cells of each row; if either parse fails the TotalDuration
cell is overwritten with the empty string and a warning is emitted, and if
both succeed it is set to their exact sum formatted with three fractional
digits.  `Foo="10.000", Bar="5.500"` gives `"15.500"`; `Foo="bad"` gives
`""`. -/
theorem C4_total_duration_row_behavior :
    (∀ (fooI barI totI : Nat) (row : List String) fc bc,
      row[fooI]? = some fc → row[barI]? = some bc → totI < row.length →
      ((goParseFloat (goTrimSpace fc) = none ∨ goParseFloat (goTrimSpace bc) = none) →
        totalRow fooI barI totI row = some (row.set totI "", [rowWarn row])) ∧
      (∀ f b, goParseFloat (goTrimSpace fc) = some f →
        goParseFloat (goTrimSpace bc) = some b →
        totalRow fooI barI totI row =
          some (row.set totI (goFormatFixed3 (Dec.add f b)), []) ∧
        (Dec.add f b).toRat = f.toRat + b.toRat)) ∧
    (∀ (header row : List String) fooI barI totI r w,
      trimNameIdx "FooDuration" header = some fooI →
      trimNameIdx "BarDuration" header = some barI →
      trimNameIdx "TotalDuration" header = some totI →
      totalRow fooI barI totI row = some (r, w) →
      ProcessTotalDuration [header, row] = .ok [header, r] w) ∧
    totalRow 0 1 2 ["10.000", "5.500", "x"] =
      some (["10.000", "5.500", "15.500"], []) ∧
    totalRow 0 1 2 ["bad", "5.500", "x"] =
      some (["bad", "5.500", ""], [rowWarn ["bad", "5.500", "x"]]) := by
  refine ⟨?_, ?_, by decide, by decide⟩
  · intro fooI barI totI row fc bc h1 h2 h3
    constructor
    · intro hor
      rcases hor with hf | hb
      · simp [totalRow, h1, h2, h3, hf]
      · cases hfc : goParseFloat (goTrimSpace fc) <;>
          simp [totalRow, h1, h2, h3, hfc, hb]
    · intro f b hf hb
      exact ⟨by simp [totalRow, h1, h2, h3, hf, hb], Dec.toRat_add f b⟩
  · intro header row fooI barI totI r w hfoo hbar htot hrow
    simp [ProcessTotalDuration, hfoo, hbar, htot, mapRowsC, hrow]

/-- C4 witness: the theorem applied to the already-converted row
`["10.000", "5.500", "x"]` and to the failing row `["bad", "5.500", "x"]`
at indices 0, 1, 2, plus the full stage on the corresponding table. -/
theorem C4_total_duration_row_behavior_witness :
    totalRow 0 1 2 ["10.000", "5.500", "x"] =
      some ((["10.000", "5.500", "x"].set 2
        (goFormatFixed3 (Dec.add ⟨10000, -3⟩ ⟨5500, -3⟩))), []) ∧
    (Dec.add (⟨10000, -3⟩ : Dec) ⟨5500, -3⟩).toRat =
      (⟨10000, -3⟩ : Dec).toRat + (⟨5500, -3⟩ : Dec).toRat ∧
    totalRow 0 1 2 ["bad", "5.500", "x"] =
      some ((["bad", "5.500", "x"].set 2 ""), [rowWarn ["bad", "5.500", "x"]]) ∧
    ProcessTotalDuration [["FooDuration", "BarDuration", "TotalDuration"],
        ["10.000", "5.500", "x"]] =
      .ok [["FooDuration", "BarDuration", "TotalDuration"],
        ["10.000", "5.500", "15.500"]] [] := by
  have hmain := C4_total_duration_row_behavior.1 0 1 2 ["10.000", "5.500", "x"]
    "10.000" "5.500" (by decide) (by decide) (by decide)
  have hok := hmain.2 ⟨10000, -3⟩ ⟨5500, -3⟩ (by decide) (by decide)
  have hfail := (C4_total_duration_row_behavior.1 0 1 2 ["bad", "5.500", "x"]
    "bad" "5.500" (by decide) (by decide) (by decide)).1 (Or.inl (by decide))
  refine ⟨hok.1, hok.2, hfail, ?_⟩
  exact (C4_total_duration_row_behavior.2.1
    ["FooDuration", "BarDuration", "TotalDuration"] ["10.000", "5.500", "x"]
    0 1 2 ["10.000", "5.500", "15.500"] []
    (by decide) (by decide) (by decide) (by decide))

/-- C6 counterexample: on input cell `"3/10/24 2:30:00 PM"` the Timestamp
stage produces `"2024-03-10T17:30:00-04:00"`.  The conversion keeps the
instant identical (mapping the Eastern result back to UTC returns exactly
the UTC instant of the parsed Pacific time) and moves the wall clock ahead
by 180 minutes, not 300: the output is not "5 hours ahead" on either
reading. -/
theorem C6_counterexample_not_five_hours_ahead :
    timestampCell "3/10/24 2:30:00 PM" = some "2024-03-10T17:30:00-04:00" ∧
    parseMDY "3/10/24 2:30:00 PM" = some ⟨2024, 3, 10, 14, 30, 0⟩ ∧
    pacToUTC ⟨2024, 3, 10, 14, 30, 0⟩ = ⟨2024, 3, 10, 21, 30, 0⟩ ∧
    utcToEast ⟨2024, 3, 10, 21, 30, 0⟩ = (⟨2024, 3, 10, 17, 30, 0⟩, true) ∧
    eastToUTC ⟨2024, 3, 10, 17, 30, 0⟩ true = ⟨2024, 3, 10, 21, 30, 0⟩ ∧
    (17 * 60 + 30) - (14 * 60 + 30) = 180 ∧ ¬(180 = 300) := by
  refine ⟨by decide, by decide, by decide, by decide, by decide, by decide, by decide⟩

/-- C6 amended: the input cell `"3/10/24 2:30:00 PM"`, interpreted in US
Pacific with the DST rules of that date (PDT, UTC-7), is rewritten as the
US-Eastern RFC3339 timestamp `"2024-03-10T17:30:00-04:00"` (EDT, UTC-4):
the same instant, with the wall clock 3 hours ahead. -/
theorem C6_amended_timestamp_conversion :
    ProcessTimestamp [["Timestamp"], ["3/10/24 2:30:00 PM"]] =
      .ok [["Timestamp"], ["2024-03-10T17:30:00-04:00"]] [] ∧
    usDstWall 2024 3 10 (14 * 60 + 30) = true ∧
    eastDstUTC 2024 3 10 (21 * 60 + 30) = true ∧
    eastToUTC ⟨2024, 3, 10, 17, 30, 0⟩ true = pacToUTC ⟨2024, 3, 10, 14, 30, 0⟩ ∧
    (17 * 60 + 30) - (14 * 60 + 30) = 3 * 60 := by
  refine ⟨by decide, by decide, by decide, by decide, by decide⟩

/-! ### FirstName idempotence (C7) -/

theorem upChar_idem (c : Char) : upChar (upChar c) = upChar c := by
  by_cases h : 97 ≤ c.toNat ∧ c.toNat ≤ 122
  · have hv : (Char.ofNat (c.toNat - 32)).toNat = c.toNat - 32 :=
      toNat_ofNat_valid (c.toNat - 32) (by omega)
    simp only [upChar, if_pos h]
    rw [if_neg (by rw [hv]; omega)]
  · simp [upChar, h]

theorem isGoSpace_upChar (c : Char) (h : isGoSpace c = false) :
    isGoSpace (upChar c) = false := by
  by_cases hc : 97 ≤ c.toNat ∧ c.toNat ≤ 122
  · have hv : (Char.ofNat (c.toNat - 32)).toNat = c.toNat - 32 :=
      toNat_ofNat_valid (c.toNat - 32) (by omega)
    simp only [upChar, if_pos hc]
    simp only [isGoSpace, hv]
    simp only [Bool.or_eq_false_iff, decide_eq_false_iff_not, Bool.and_eq_false_iff]
    omega
  · simpa [upChar, hc] using h

theorem upperL_idem (l : List Char) : upperL (upperL l) = upperL l := by
  simp only [upperL, List.map_map]
  exact List.map_congr_left fun c _ => upChar_idem c

theorem fieldsAux_tokens :
    ∀ (l acc : List Char), (∀ c ∈ acc, isGoSpace c = false) →
      ∀ t ∈ fieldsAux acc l, t ≠ [] ∧ ∀ c ∈ t, isGoSpace c = false := by
  intro l
  induction l with
  | nil =>
    intro acc hacc t ht
    simp only [fieldsAux] at ht
    by_cases h0 : acc = []
    · simp [h0] at ht
    · simp only [h0, if_false] at ht
      rcases List.mem_singleton.mp ht with rfl
      exact ⟨by simpa using h0, fun c hc => hacc c (List.mem_reverse.mp hc)⟩
  | cons c cs ih =>
    intro acc hacc t ht
    simp only [fieldsAux] at ht
    by_cases hsp : isGoSpace c
    · simp only [hsp, if_true] at ht
      by_cases h0 : acc = []
      · simp only [h0, if_true] at ht
        exact ih [] (by simp) t ht
      · simp only [h0, if_false, List.mem_cons] at ht
        rcases ht with rfl | ht'
        · exact ⟨by simpa using h0, fun x hx => hacc x (List.mem_reverse.mp hx)⟩
        · exact ih [] (by simp) t ht'
    · simp only [hsp, Bool.false_eq_true, if_false] at ht
      refine ih (c :: acc) ?_ t ht
      intro x hx
      rcases List.mem_cons.mp hx with rfl | hx'
      · simpa using hsp
      · exact hacc x hx'

theorem fieldsAux_consume :
    ∀ (t acc r : List Char), (∀ c ∈ t, isGoSpace c = false) →
      fieldsAux acc (t ++ r) = fieldsAux (t.reverse ++ acc) r := by
  intro t
  induction t with
  | nil => intro acc r _; simp
  | cons c t' ih =>
    intro acc r h
    have hc : isGoSpace c = false := h c (List.mem_cons_self c t')
    simp only [List.cons_append, fieldsAux, hc, Bool.false_eq_true, if_false]
    show fieldsAux (c :: acc) (t' ++ r) = fieldsAux ((c :: t').reverse ++ acc) r
    rw [ih (c :: acc) r fun x hx => h x (List.mem_cons_of_mem c hx)]
    simp [List.append_assoc]

theorem goFieldsL_joinSp :
    ∀ ts : List (List Char),
      (∀ t ∈ ts, t ≠ [] ∧ ∀ c ∈ t, isGoSpace c = false) →
      goFieldsL (joinSp ts) = ts := by
  intro ts
  induction ts with
  | nil => intro _; simp [joinSp, goFieldsL, fieldsAux]
  | cons t ts ih =>
    intro h
    have ht := h t (List.mem_cons_self t ts)
    cases ts with
    | nil =>
      show goFieldsL (joinSp [t]) = [t]
      have : joinSp [t] = t ++ [] := by simp [joinSp]
      rw [goFieldsL, this, fieldsAux_consume t [] [] ht.2]
      have hrev : t.reverse ≠ [] := by simpa using ht.1
      simp [fieldsAux, hrev]
    | cons u us =>
      show goFieldsL (joinSp (t :: u :: us)) = t :: u :: us
      have hj : joinSp (t :: u :: us) = t ++ ' ' :: joinSp (u :: us) := rfl
      rw [goFieldsL, hj, fieldsAux_consume t [] (' ' :: joinSp (u :: us)) ht.2]
      have hrev : ¬(t.reverse = []) := by simpa using ht.1
      have hsp : isGoSpace ' ' = true := by decide
      simp only [fieldsAux, hsp, if_true, List.append_nil, List.reverse_reverse]
      rw [if_neg hrev]
      rw [show fieldsAux [] (joinSp (u :: us)) = goFieldsL (joinSp (u :: us)) from rfl]
      rw [ih fun x hx => h x (List.mem_cons_of_mem t hx)]

theorem joinSp_ne_nil (t : List Char) (ts : List (List Char)) (ht : t ≠ []) :
    joinSp (t :: ts) ≠ [] := by
  cases ts with
  | nil => simpa [joinSp] using ht
  | cons u us =>
    show t ++ ' ' :: joinSp (u :: us) ≠ []
    simp

theorem joinSp_head (c : Char) (t' : List Char) (ts : List (List Char)) :
    ∃ rest, joinSp ((c :: t') :: ts) = c :: rest := by
  cases ts with
  | nil => exact ⟨t', rfl⟩
  | cons u us => exact ⟨t' ++ ' ' :: joinSp (u :: us), rfl⟩

theorem joinSp_reverse_head :
    ∀ (ts : List (List Char)) (t : List Char),
      (∀ x ∈ t :: ts, x ≠ [] ∧ ∀ c ∈ x, isGoSpace c = false) →
      ∃ c rest, (joinSp (t :: ts)).reverse = c :: rest ∧ isGoSpace c = false := by
  intro ts
  induction ts with
  | nil =>
    intro t h
    have ht := h t (List.mem_cons_self t [])
    cases hrev : t.reverse with
    | nil => exact absurd (by simpa using hrev) ht.1
    | cons c r =>
      refine ⟨c, r, by simp [joinSp, hrev], ?_⟩
      have : c ∈ t.reverse := by simp [hrev]
      exact ht.2 c (List.mem_reverse.mp this)
  | cons u us ih =>
    intro t h
    obtain ⟨c, rest, hrev, hc⟩ := ih u fun x hx => h x (List.mem_cons_of_mem t hx)
    refine ⟨c, rest ++ [' '] ++ t.reverse, ?_, hc⟩
    show (t ++ ' ' :: joinSp (u :: us)).reverse = c :: (rest ++ [' '] ++ t.reverse)
    rw [List.reverse_append]
    simp [hrev]

theorem trimL_joinSp (t : List Char) (ts : List (List Char))
    (h : ∀ x ∈ t :: ts, x ≠ [] ∧ ∀ c ∈ x, isGoSpace c = false) :
    trimL (joinSp (t :: ts)) = joinSp (t :: ts) := by
  have ht := h t (List.mem_cons_self t ts)
  obtain ⟨c, t', rfl⟩ : ∃ c t', t = c :: t' := by
    cases t with
    | nil => exact absurd rfl ht.1
    | cons c t' => exact ⟨c, t', rfl⟩
  obtain ⟨rest, hj⟩ := joinSp_head c t' ts
  have hc : isGoSpace c = false := ht.2 c (List.mem_cons_self c t')
  obtain ⟨d, rrest, hrev, hd⟩ := joinSp_reverse_head ts (c :: t') h
  unfold trimL
  rw [hj, List.dropWhile_cons_of_neg (by simp [hc]), ← hj, hrev,
    List.dropWhile_cons_of_neg (by simp [hd]), ← hrev, List.reverse_reverse]

theorem firstNameCell_idem (s : String) :
    firstNameCell (firstNameCell s) = firstNameCell s := by
  by_cases horig : goTrimSpace s = ""
  · simp [firstNameCell, horig]
  · cases hf : goFieldsL (goTrimSpace s).data with
    | nil =>
      have hcell : firstNameCell s = s := by
        simp [firstNameCell, horig, hf]
      rw [hcell]
      exact hcell
    | cons p ps =>
      have hcell : firstNameCell s = ⟨joinSp (upperL p :: ps)⟩ := by
        simp [firstNameCell, horig, hf]
      have htoks : ∀ t ∈ p :: ps, t ≠ [] ∧ ∀ c ∈ t, isGoSpace c = false := by
        rw [← hf]
        exact fieldsAux_tokens (goTrimSpace s).data [] (by simp)
      have htoks' : ∀ t ∈ upperL p :: ps, t ≠ [] ∧ ∀ c ∈ t, isGoSpace c = false := by
        intro t htm
        rcases List.mem_cons.mp htm with rfl | htm'
        · have hp := htoks p (List.mem_cons_self p ps)
          constructor
          · simpa [upperL] using hp.1
          · intro x hx
            simp only [upperL, List.mem_map] at hx
            obtain ⟨y, hy, rfl⟩ := hx
            exact isGoSpace_upChar y (hp.2 y hy)
        · exact htoks t (List.mem_cons_of_mem p htm')
      have hv : firstNameCell (⟨joinSp (upperL p :: ps)⟩ : String)
          = ⟨joinSp (upperL p :: ps)⟩ := by
        have hdata : (⟨joinSp (upperL p :: ps)⟩ : String).data
            = joinSp (upperL p :: ps) := rfl
        have htrim : goTrimSpace (⟨joinSp (upperL p :: ps)⟩ : String)
            = ⟨joinSp (upperL p :: ps)⟩ := by
          show String.mk (trimL (joinSp (upperL p :: ps))) = _
          rw [trimL_joinSp (upperL p) ps htoks']
        have hne : (⟨joinSp (upperL p :: ps)⟩ : String) ≠ "" := by
          have := joinSp_ne_nil (upperL p) ps (htoks' (upperL p)
            (List.mem_cons_self (upperL p) ps)).1
          intro hcon
          apply this
          simpa [String.ext_iff] using hcon
        have hfields : goFieldsL (joinSp (upperL p :: ps)) = upperL p :: ps :=
          goFieldsL_joinSp (upperL p :: ps) htoks'
        rw [firstNameCell, htrim]
        simp only [hne, if_false, hdata, hfields, upperL_idem]
      rw [hcell, hv]

theorem firstNameRow_snd (i : Nat) (row : List String) :
    (firstNameRow i row).2 = [] := by
  cases hc : row[i]? <;> simp [firstNameRow, hc]

theorem firstNameRow_idem (i : Nat) (row : List String) :
    (firstNameRow i (firstNameRow i row).1).1 = (firstNameRow i row).1 := by
  cases hc : row[i]? with
  | none =>
    have : (firstNameRow i row).1 = row := by simp [firstNameRow, hc]
    rw [this]
    simp [firstNameRow, hc]
  | some c =>
    have hlt : i < row.length := by
      by_contra hcon
      rw [List.getElem?_eq_none (by omega)] at hc
      cases hc
    have h1 : (firstNameRow i row).1 = row.set i (firstNameCell c) := by
      simp [firstNameRow, hc]
    have h2 : (row.set i (firstNameCell c))[i]? = some (firstNameCell c) := by
      rw [List.getElem?_set_self']
      simp [hc]
    rw [h1]
    simp [firstNameRow, h2, List.set_set, firstNameCell_idem]

/-- C7: the FirstName stage is idempotent — whenever it succeeds, feeding
its output table back through the stage returns that table (and the same,
empty, warning list) again. -/
theorem C7_firstname_stage_idempotent :
    ∀ (t t' : List (List String)) (w : List String),
      ProcessFirstName t = .ok t' w → ProcessFirstName t' = .ok t' w := by
  intro t t' w h
  cases t with
  | nil =>
    simp only [ProcessFirstName] at h
    injection h with h1 h2
    subst h1; subst h2
    rfl
  | cons header rows =>
    cases hl : fullNameIdx header with
    | none => simp [ProcessFirstName, hl] at h
    | some i =>
      simp only [ProcessFirstName, hl, mapRowsW_eq] at h
      injection h with h1 h2
      subst h1; subst h2
      have hw : (rows.flatMap fun r => (firstNameRow i r).2) = [] := by
        simp [firstNameRow_snd]
      rw [hw]
      simp only [ProcessFirstName, hl, mapRowsW_eq, List.map_map]
      have hmap : (rows.map fun r => (firstNameRow i r).1).map
          (fun r => (firstNameRow i r).1) = rows.map fun r => (firstNameRow i r).1 := by
        rw [List.map_map]
        exact List.map_congr_left fun r _ => firstNameRow_idem i r
      rw [List.map_map] at hmap
      have hw2 : ((rows.map fun r => (firstNameRow i r).1).flatMap
          fun r => (firstNameRow i r).2) = [] := by
        simp [firstNameRow_snd]
      rw [show ((fun r => (firstNameRow i r).1) ∘ fun r => (firstNameRow i r).1)
        = fun r => (firstNameRow i (firstNameRow i r).1).1 from rfl] at hmap ⊢
      simp [hmap, hw2]

/-- C7 witness: the stage applied to a one-row table, and then the theorem
applied to that run: the second application reproduces the first result. -/
theorem C7_firstname_stage_idempotent_witness :
    ProcessFirstName [["FullName"], [" john  doe "]] =
      .ok [["FullName"], ["JOHN doe"]] [] ∧
    ProcessFirstName [["FullName"], ["JOHN doe"]] =
      .ok [["FullName"], ["JOHN doe"]] [] := by
  refine ⟨by decide, ?_⟩
  exact C7_firstname_stage_idempotent [["FullName"], [" john  doe "]]
    [["FullName"], ["JOHN doe"]] [] (by decide)

/-! ### UTF-8 replacement lemmas and the Notes stage (C8) -/

theorem utf8ReplaceF_nil (f : Nat) : utf8ReplaceF f [] = [] := by
  cases f <;> rfl

theorem utf8ReplaceF_fuel :
    ∀ (f1 f2 : Nat) (l : List Nat), l.length ≤ f1 → l.length ≤ f2 →
      utf8ReplaceF f1 l = utf8ReplaceF f2 l := by
  intro f1
  induction f1 with
  | zero =>
    intro f2 l h1 _
    have : l = [] := by
      cases l with
      | nil => rfl
      | cons a t => simp at h1
    subst this
    simp [utf8ReplaceF_nil]
  | succ f1 ih =>
    intro f2 l h1 h2
    cases l with
    | nil => simp [utf8ReplaceF_nil]
    | cons b rest =>
      cases f2 with
      | zero => simp at h2
      | succ g =>
        simp only [utf8ReplaceF]
        simp only [List.length_cons, Nat.add_le_add_iff_right] at h1 h2
        repeat' split
        all_goals first
          | rfl
          | (simp only [List.cons.injEq, List.append_right_inj, true_and]
             apply ih g <;> ((try simp only [List.length_cons] at h1 h2 ⊢); omega))

theorem utf8ReplaceF_valid_append :
    ∀ (fuel : Nat) (v s : List Nat), utf8Valid v = true →
      v.length + s.length ≤ fuel →
      utf8ReplaceF fuel (v ++ s) = v ++ utf8Replace s := by
  intro fuel
  induction fuel with
  | zero =>
    intro v s hv hb
    have hv0 : v = [] := by
      cases v with
      | nil => rfl
      | cons a t => simp at hb
    subst hv0
    have hs0 : s = [] := by
      cases s with
      | nil => rfl
      | cons a t => simp at hb
    subst hs0
    simp [utf8Replace, utf8ReplaceF_nil]
  | succ fuel ih =>
    intro v s hv hb
    cases v with
    | nil =>
      simp only [List.nil_append]
      rw [utf8Replace]
      exact utf8ReplaceF_fuel (fuel + 1) s.length s (by simpa using hb) le_rfl
    | cons b rest =>
      rw [utf8Valid] at hv
      by_cases hb80 : b < 0x80
      · rw [if_pos hb80] at hv
        simp only [List.cons_append, utf8ReplaceF, if_pos hb80, List.append_eq]
        rw [ih rest s hv (by simp only [List.length_cons] at hb; omega)]
      · rw [if_neg hb80] at hv
        cases hL : leadInfo b with
        | none => rw [hL] at hv; simp at hv
        | some kli =>
          obtain ⟨k, lo, hi⟩ := kli
          rw [hL] at hv
          rcases k with _ | _ | _ | _ | k
          · simp at hv
          · cases rest with
            | nil => simp at hv
            | cons c1 r1 =>
              have hv' : (cont lo hi c1 && utf8Valid r1) = true := hv
              simp only [Bool.and_eq_true] at hv'
              obtain ⟨hc1, hr1⟩ := hv'
              simp only [List.cons_append, utf8ReplaceF, if_neg hb80, hL, List.append_eq]
              simp only [hc1, if_true]
              rw [ih r1 s hr1 (by simp only [List.length_cons] at hb; omega)]
          · cases rest with
            | nil => simp at hv
            | cons c1 r1 =>
              cases r1 with
              | nil => simp at hv
              | cons c2 r2 =>
                have hv' : (cont lo hi c1 && cont 0x80 0xBF c2 && utf8Valid r2) = true := hv
                simp only [Bool.and_eq_true] at hv'
                obtain ⟨⟨hc1, hc2⟩, hr2⟩ := hv'
                simp only [List.cons_append, utf8ReplaceF, if_neg hb80, hL, List.append_eq]
                simp only [hc1, hc2, if_true]
                rw [ih r2 s hr2 (by simp only [List.length_cons] at hb; omega)]
          · cases rest with
            | nil => simp at hv
            | cons c1 r1 =>
              cases r1 with
              | nil => simp at hv
              | cons c2 r2 =>
                cases r2 with
                | nil => simp at hv
                | cons c3 r3 =>
                  have hv' : (cont lo hi c1 && cont 0x80 0xBF c2 && cont 0x80 0xBF c3
                      && utf8Valid r3) = true := hv
                  simp only [Bool.and_eq_true] at hv'
                  obtain ⟨⟨⟨hc1, hc2⟩, hc3⟩, hr3⟩ := hv'
                  simp only [List.cons_append, utf8ReplaceF, if_neg hb80, hL, List.append_eq]
                  simp only [hc1, hc2, hc3, if_true]
                  rw [ih r3 s hr3 (by simp only [List.length_cons] at hb; omega)]
          · simp at hv

theorem utf8Replace_valid (v : List Nat) (hv : utf8Valid v = true) :
    utf8Replace v = v := by
  have := utf8ReplaceF_valid_append v.length v [] hv (by simp)
  rw [List.append_nil] at this
  rw [utf8Replace, this]
  simp [utf8Replace, utf8ReplaceF_nil]

theorem utf8Replace_valid_append (v s : List Nat) (hv : utf8Valid v = true) :
    utf8Replace (v ++ s) = v ++ utf8Replace s := by
  rw [utf8Replace, List.length_append]
  exact utf8ReplaceF_valid_append (v.length + s.length) v s hv le_rfl

/-- C8: for every Notes cell, a cell valid under the UTF-8 rules is left
byte-identical; an invalid cell is rewritten with the replacing decoder,
which copies every valid prefix of complete runes byte-for-byte and turns
each maximal ill-formed subsequence into U+FFFD; the decoder itself never
fails, and if it could fail the cell would be kept with a warning (the
stage's error branch).  The stage emits no warnings because cleaning
always succeeds. -/
theorem C8_notes_stage_sanitization :
    (∀ (header : List (List Nat)) rows i, notesIdx header = some i →
      ProcessNotes (header :: rows) =
        .ok (header :: rows.map fun r => (notesRow i r).1) []) ∧
    (∀ (row : List (List Nat)) i c, row[i]? = some c → utf8Valid c = true →
      (notesRow i row).1 = row) ∧
    (∀ (row : List (List Nat)) i c, row[i]? = some c → utf8Valid c = false →
      (notesRow i row).1 = row.set i (utf8Replace c)) ∧
    (∀ c, utf8Valid c = true → utf8Replace c = c) ∧
    (∀ v s, utf8Valid v = true → utf8Replace (v ++ s) = v ++ utf8Replace s) ∧
    (∀ c, notesClean c = some (utf8Replace c)) ∧
    utf8Replace [0x61, 0xFF, 0x62] = [0x61, 0xEF, 0xBF, 0xBD, 0x62] := by
  refine ⟨?_, ?_, ?_, fun c h => utf8Replace_valid c h,
    fun v s h => utf8Replace_valid_append v s h, fun c => rfl, by decide⟩
  · intro header rows i hi
    have hw : ∀ r : List (List Nat), (notesRow i r).2 = [] := by
      intro r
      cases hc : r[i]? with
      | none => simp [notesRow, hc]
      | some c => by_cases hv : utf8Valid c <;> simp [notesRow, hc, hv, notesClean]
    simp [ProcessNotes, hi, mapRowsW_eq, hw]
  · intro row i c hc hv
    simp [notesRow, hc, hv]
  · intro row i c hc hv
    simp [notesRow, hc, hv, notesClean]

/-- C8 witness: the stage on a table whose Notes column holds the invalid
cell `61 FF 62` and the valid cell `"ok"`: the invalid byte becomes U+FFFD
with the valid bytes around it preserved, the valid cell stays
byte-identical, and no warnings are emitted. -/
theorem C8_notes_stage_sanitization_witness :
    ProcessNotes [[bstr "Notes"], [[0x61, 0xFF, 0x62]], [bstr "ok"]] =
      .ok [[bstr "Notes"], [[0x61, 0xEF, 0xBF, 0xBD, 0x62]], [bstr "ok"]] [] ∧
    (notesRow 0 [[0x61, 0xFF, 0x62]]).1 =
      [[0x61, 0xFF, 0x62]].set 0 (utf8Replace [0x61, 0xFF, 0x62]) ∧
    utf8Replace (bstr "ok") = bstr "ok" := by
  refine ⟨?_, ?_, ?_⟩
  · refine (C8_notes_stage_sanitization.1 [bstr "Notes"]
      [[[0x61, 0xFF, 0x62]], [bstr "ok"]] 0 (by decide)).trans ?_
    decide
  · exact C8_notes_stage_sanitization.2.2.1 [[0x61, 0xFF, 0x62]] 0
      [0x61, 0xFF, 0x62] (by decide) (by decide)
  · exact C8_notes_stage_sanitization.2.2.2.1 (bstr "ok") (by decide)
